import Mathlib

/-!
Verification of the lock-driven resolver and installer core of pantsbuild-pex.

The definitions below are a shallow embedding of the Python source:

* `pex/cli/commands/lockfile/lockfile.py` (`_RankedLock.rank`, `Lockfile._select`)
* `pex/resolve/lock_resolver.py` (`MAX_PARALLEL_DOWNLOADS`, `resolve_from_lock`)
* `pex/build_system/pep_517.py` (`is_hook_unavailable_error`, `_invoke_build_hook`)
* `pex/pip/vcs.py` (`digest_vcs_archive`)
* `pex/resolve/resolver_options.py` (`_parse_path_mapping`)

Python strings are `String`, Python ints are `Nat`/`Int`, Python floats that
arise as exact quotients of small integers are `Rat` (float division is
correctly rounded, hence monotone; using exact rationals preserves every
comparison the code makes), `None`-able values are `Option`, and fallible
operations return `Except`.
-/

namespace Pex

/-! ## String helpers mirroring the Python stdlib operations used by the code

The Python operations the code uses (`str.split` with single-character
separators, `str.endswith`, `os.path.basename`, `os.path.splitext`) are
embedded as structural recursion over the character list of a `String`, so
every definition evaluates by kernel reduction on concrete inputs. -/

/-- Python `s.split(sep)` for a single-character separator, on character
lists: always returns a nonempty list; a separator at either end yields an
empty piece, exactly as in Python. -/
def splitChar (sep : Char) : List Char → List (List Char)
  | [] => [[]]
  | c :: cs =>
    if c = sep then [] :: splitChar sep cs
    else
      match splitChar sep cs with
      | [] => [[c]]
      | piece :: pieces => (c :: piece) :: pieces

/-- Python `s.split(sep)` for a single-character separator. -/
def splitStr (sep : Char) (s : String) : List String :=
  (splitChar sep s.data).map String.mk

/-- Python `sep.join(parts)` for a single-character separator. -/
def joinStr (sep : Char) (parts : List String) : String :=
  String.mk (List.intercalate [sep] (parts.map String.data))

/-- Python `s.endswith(suffix)`. -/
def strEndsWith (s suf : String) : Bool :=
  suf.data.isSuffixOf s.data

/-- Python `s.split(sep, 2)`: at most two splits, the remainder past the
second separator stays joined. -/
def splitLimit2 (sep : Char) (s : String) : List String :=
  match splitStr sep s with
  | [] => [s]
  | [a] => [a]
  | [a, b] => [a, b]
  | a :: b :: rest => [a, b, joinStr sep rest]

/-- The last element of a Python list (`lst[-1]`), defaulting to `""` for the
empty list (Python `str.split` never returns an empty list). -/
def lastComponent (l : List String) : String := l.getLastD ""

/-- `os.path.basename`: the part of a POSIX path after the last `/`. -/
def basename (p : String) : String := lastComponent (splitStr '/' p)

/-- The path component of `urlparse(url)`: everything before the query (`?`)
and fragment (`#`).  Since the code only ever takes `os.path.basename` of
this path, stripping the query and fragment and then taking the segment after
the last `/` agrees with `os.path.basename(urlparse(url).path)` for every URL
whose netloc is followed by a `/` (the scheme and netloc contain no `/`, so
keeping them never changes the basename). -/
def urlFileName (url : String) : String :=
  basename (((splitStr '?' ((splitStr '#' url).headD "")).headD ""))

/-- `os.path.splitext(f)[0]`: drop the final extension (the text from the
last dot, when a dot is present; wheel file names never hit the
leading-dot special case of `os.path.splitext`). -/
def splitextStem (f : String) : String :=
  match splitStr '.' f with
  | [] => f
  | [a] => a
  | parts => joinStr '.' parts.dropLast

/-! ## Compatibility tags -/

/-- A PEP 425 compatibility tag `(interpreter, abi, platform)`, the value type
of the vendored `packaging.tags.Tag`. -/
structure Tag where
  interpreter : String
  abi : String
  platform : String
deriving DecidableEq, Repr

/-- Modelled from the spec: the wheel branch of the tag matcher must "parse
the filename's tag segment into one or more compatibility tags" — the
vendored `packaging.tags.parse_tag`, which is not under `src/`.  A compressed
tag set `interps-abis-platforms` expands to the cartesian product of the
`.`-separated component lists.  (`packaging` raises for a tag string that does
not have exactly three `-`-separated parts; such malformed wheel names do not
occur in the claims and are modelled as producing no tags.) -/
def parse_tag (s : String) : List Tag :=
  match splitStr '-' s with
  | [interpreters, abis, platforms] =>
    (splitStr '.' interpreters).flatMap fun i =>
      (splitStr '.' abis).flatMap fun a =>
        (splitStr '.' platforms).map fun p => Tag.mk i a p
  | _ => []

/-- The `supported_tags` mapping `tags.Tag -> int` is modelled as an
association list; `dict.get` is lookup of the first matching key (association
lists built by `mkSupportedTags` from duplicate-free tag sequences have unique
keys, so first-match equals the Python dict lookup). -/
def tagRank (supported_tags : List (Tag × Nat)) (t : Tag) : Option Nat :=
  (supported_tags.find? fun p => p.1 = t).map Prod.snd

/-- `{tag: index for index, tag in enumerate(target.get_supported_tags())}`
from `Lockfile._select`.  For a duplicate-free tag sequence this is exactly
the Python dict: each tag maps to its index and the length is the length of
the sequence. -/
def mkSupportedTags (ts : List Tag) : List (Tag × Nat) :=
  ts.enum.map fun p => (p.2, p.1)

/-! ## The lock data model

`LockedResolve` lives in `pex/resolve/locked_resolve.py`, which is not under
`src/`; its shape is modelled from the spec: an artifact carries a URL, a
locked requirement carries its artifacts (`iter_artifacts()` yields the
primary artifact and then the additional ones; the rank only takes minima
over this sequence so only the set of URLs matters), and a locked resolve is
`{ platform_tag, locked_requirements }`.  The spec fixes the `RankedLock`
total order as "ascending by rank; tie-break by `platform_tag` lexicographic",
so `platform_tag` is modelled as its string rendering. -/

structure Artifact where
  url : String
deriving DecidableEq, Repr

structure LockedRequirement where
  artifacts : List Artifact
deriving DecidableEq, Repr

structure LockedResolve where
  platform_tag : String
  locked_requirements : List LockedRequirement
deriving DecidableEq, Repr

/-! ## `_RankedLock.rank` (`pex/cli/commands/lockfile/lockfile.py:75-117`) -/

/-- The tuple-of-suffixes test
`artifact_file.endswith((".sdist", ".tar.gz", ".tgz", ".tar.bz2", ".tbz2", ".zip"))`
opening the artifact loop of `_RankedLock.rank`. -/
def isSourceArchiveName (artifact_file : String) : Bool :=
  strEndsWith artifact_file ".sdist" || strEndsWith artifact_file ".tar.gz"
    || strEndsWith artifact_file ".tgz" || strEndsWith artifact_file ".tar.bz2"
    || strEndsWith artifact_file ".tbz2" || strEndsWith artifact_file ".zip"

/-- The candidate ranks one artifact file name contributes inside the inner
loop of `_RankedLock.rank`: a source archive contributes
`len(supported_tags)`, a wheel contributes the rank of each of its parsed
tags that appears in `supported_tags`, and any other file contributes
nothing. -/
def fileCandidateRanks (supported_tags : List (Tag × Nat)) (artifact_file : String) :
    List Nat :=
  if isSourceArchiveName artifact_file then
    [supported_tags.length]
  else if strEndsWith artifact_file ".whl" then
    (parse_tag (lastComponent (splitLimit2 '-' (splitextStem artifact_file)))).filterMap
      (tagRank supported_tags)
  else
    []

/-- The candidate ranks of one artifact: its URL is parsed, the basename of
the path taken, and the file name classified. -/
def artifactCandidateRanks (supported_tags : List (Tag × Nat)) (a : Artifact) : List Nat :=
  fileCandidateRanks supported_tags (urlFileName a.url)

/-- `requirement_rank` after the artifact loop: the minimum candidate rank
across all of the requirement's artifacts, `none` when no artifact received a
rank.  The source accumulates with repeated `min`, which is fold-order
independent. -/
def requirementRank (supported_tags : List (Tag × Nat)) (req : LockedRequirement) :
    Option Nat :=
  (req.artifacts.flatMap (artifactCandidateRanks supported_tags)).min?

/-- `resolve_rank` after the requirement loop: the sum of the requirement
ranks, `none` as soon as any requirement has no rank (the source returns
early; summing after a totality check is equivalent). -/
def sumRequirementRanks (supported_tags : List (Tag × Nat)) :
    List LockedRequirement → Option Nat
  | [] => some 0
  | req :: reqs =>
    match requirementRank supported_tags req, sumRequirementRanks supported_tags reqs with
    | some k, some s => some (k + s)
    | _, _ => none

/-- The transient `_RankedLock` value:
`{ average_requirement_rank, locked_resolve }`. -/
structure RankedLock where
  average_requirement_rank : Rat
  locked_resolve : LockedResolve
deriving DecidableEq, Repr

namespace RankedLock

/-- `_RankedLock.rank(locked_resolve, supported_tags)`: `none` when the
resolve has no locked requirements (`resolve_rank` is never set) or when some
requirement has no rankable artifact; otherwise the average requirement rank
paired with the resolve. -/
def rank (locked_resolve : LockedResolve) (supported_tags : List (Tag × Nat)) :
    Option RankedLock :=
  match locked_resolve.locked_requirements, sumRequirementRanks supported_tags
      locked_resolve.locked_requirements with
  | [], _ => none
  | _, none => none
  | reqs, some s =>
    some ⟨(s : Rat) / (reqs.length : Rat), locked_resolve⟩

end RankedLock

/-! ## `Lockfile._select` (`pex/cli/commands/lockfile/lockfile.py:188-216`) -/

/-- The strict order `sorted` uses on `_RankedLock` values: `attrs` compares
the field tuple `(average_requirement_rank, locked_resolve)` and the
`LockedResolve` comparison starts with `platform_tag` rendered as a string
(spec: "ascending by rank; tie-break by `platform_tag` lexicographic"). -/
def rankedLockBefore (a b : RankedLock) : Bool :=
  a.average_requirement_rank < b.average_requirement_rank
    || (a.average_requirement_rank == b.average_requirement_rank
        && a.locked_resolve.platform_tag < b.locked_resolve.platform_tag)

/-- `sorted(ranked_locks)[0]`: the least element under `rankedLockBefore`
(leftmost among items tied on both rank and platform tag, matching the
stability of Python's sort up to the deeper `locked_requirements`
comparison, which no claim concerns). -/
def pickMin (best : RankedLock) : List RankedLock → RankedLock
  | [] => best
  | r :: rs => pickMin (if rankedLockBefore r best then r else best) rs

/-- The lockfile state `Lockfile._select` reads: its locked resolves.  The
other `Lockfile` fields do not participate in selection. -/
structure Lockfile where
  locked_resolves : List LockedResolve
deriving DecidableEq, Repr

/-- The ranked locks `_select` accumulates: every locked resolve is ranked
and the `None`s are discarded. -/
def rankedLocks (lf : Lockfile) (supported_tags : List (Tag × Nat)) : List RankedLock :=
  lf.locked_resolves.filterMap fun lr => RankedLock.rank lr supported_tags

/-- `Lockfile._select(target)`: rank every locked resolve against the tags of
the target (`mkSupportedTags ts` is the enumerated dict), discard the
`None`s, and return the locked resolve of the least ranked lock; `none` when
no resolve ranks. -/
def Lockfile.selectResolve (lf : Lockfile) (ts : List Tag) : Option LockedResolve :=
  match rankedLocks lf (mkSupportedTags ts) with
  | [] => none
  | r :: rs => some (pickMin r rs).locked_resolve

/-! ## Supporting lemmas about the rank machinery -/

theorem sumRequirementRanks_some (st : List (Tag × Nat)) :
    ∀ reqs : List LockedRequirement, ∀ s, sumRequirementRanks st reqs = some s →
      ∀ req ∈ reqs, ∃ n, requirementRank st req = some n := by
  intro reqs
  induction reqs with
  | nil => intro s _ req h; cases h
  | cons r rs ih =>
    intro s hs req hmem
    simp only [sumRequirementRanks] at hs
    cases hr : requirementRank st r with
    | none => rw [hr] at hs; cases hs
    | some k =>
      rw [hr] at hs
      cases htl : sumRequirementRanks st rs with
      | none => rw [htl] at hs; cases hs
      | some t =>
        rcases List.mem_cons.mp hmem with rfl | hmem'
        · exact ⟨k, hr⟩
        · exact ih t htl req hmem'

theorem sumRequirementRanks_none_of_mem (st : List (Tag × Nat)) :
    ∀ reqs : List LockedRequirement, ∀ req ∈ reqs, requirementRank st req = none →
      sumRequirementRanks st reqs = none := by
  intro reqs
  induction reqs with
  | nil => intro req h; cases h
  | cons r rs ih =>
    intro req hmem hnone
    simp only [sumRequirementRanks]
    rcases List.mem_cons.mp hmem with rfl | hmem'
    · rw [hnone]
    · rw [ih req hmem' hnone]
      cases requirementRank st r <;> rfl

/-- Characterization of a successful `_RankedLock.rank`. -/
theorem rank_eq_some_iff (lr : LockedResolve) (st : List (Tag × Nat)) (rl : RankedLock) :
    RankedLock.rank lr st = some rl ↔
      lr.locked_requirements ≠ [] ∧
      ∃ s, sumRequirementRanks st lr.locked_requirements = some s ∧
        rl = ⟨(s : Rat) / (lr.locked_requirements.length : Rat), lr⟩ := by
  unfold RankedLock.rank
  cases hreqs : lr.locked_requirements with
  | nil => simp
  | cons r rs =>
    cases hsum : sumRequirementRanks st (r :: rs) with
    | none => simp
    | some s =>
      simp only [Option.some.injEq, ne_eq, reduceCtorEq, not_false_eq_true, true_and]
      constructor
      · intro h; exact ⟨s, rfl, h.symm⟩
      · rintro ⟨s', hs', rfl⟩
        obtain rfl : s = s' := by simpa using hs'
        rfl

theorem pickMin_mem (l : List RankedLock) : ∀ best, pickMin best l ∈ best :: l := by
  induction l with
  | nil => intro best; simp [pickMin]
  | cons r rs ih =>
    intro best
    simp only [pickMin]
    by_cases hb : rankedLockBefore r best = true
    · rw [if_pos hb]
      rcases List.mem_cons.mp (ih r) with h | h
      · rw [h]; exact List.mem_cons.mpr (Or.inr (List.mem_cons_self r rs))
      · exact List.mem_cons.mpr (Or.inr (List.mem_cons.mpr (Or.inr h)))
    · rw [if_neg hb]
      rcases List.mem_cons.mp (ih best) with h | h
      · rw [h]; exact List.mem_cons_self best _
      · exact List.mem_cons.mpr (Or.inr (List.mem_cons.mpr (Or.inr h)))

/-- The reflexive order the selected ranked lock is minimal under:
ascending by average rank, ties broken by platform tag. -/
def rankedLockLE (a b : RankedLock) : Prop :=
  a.average_requirement_rank < b.average_requirement_rank ∨
    (a.average_requirement_rank = b.average_requirement_rank ∧
     a.locked_resolve.platform_tag ≤ b.locked_resolve.platform_tag)

theorem rankedLockLE_of_before {a b : RankedLock} (h : rankedLockBefore a b = true) :
    rankedLockLE a b := by
  simp only [rankedLockBefore, Bool.or_eq_true, Bool.and_eq_true, decide_eq_true_eq,
    beq_iff_eq] at h
  rcases h with h | ⟨h1, h2⟩
  · exact Or.inl h
  · exact Or.inr ⟨h1, le_of_lt h2⟩

theorem rankedLockLE_of_not_before {a b : RankedLock} (h : rankedLockBefore a b = false) :
    rankedLockLE b a := by
  simp only [rankedLockBefore, Bool.or_eq_false_iff, Bool.and_eq_false_iff,
    decide_eq_false_iff_not, not_lt, beq_eq_false_iff_ne, ne_eq] at h
  obtain ⟨h1, h2⟩ := h
  rcases lt_or_eq_of_le h1 with hlt | heq
  · exact Or.inl hlt
  · rcases h2 with h2 | h2
    · exact absurd heq.symm h2
    · exact Or.inr ⟨heq, h2⟩

theorem rankedLockLE_refl (a : RankedLock) : rankedLockLE a a := Or.inr ⟨rfl, le_refl _⟩

theorem rankedLockLE_trans {a b c : RankedLock} (hab : rankedLockLE a b)
    (hbc : rankedLockLE b c) : rankedLockLE a c := by
  rcases hab with h1 | ⟨h1, h1'⟩ <;> rcases hbc with h2 | ⟨h2, h2'⟩
  · exact Or.inl (lt_trans h1 h2)
  · exact Or.inl (h2 ▸ h1)
  · exact Or.inl (h1 ▸ h2)
  · exact Or.inr ⟨h1.trans h2, le_trans h1' h2'⟩

theorem pickMin_le (l : List RankedLock) :
    ∀ best, ∀ x ∈ best :: l, rankedLockLE (pickMin best l) x := by
  induction l with
  | nil =>
    intro best x hx
    rcases List.mem_cons.mp hx with rfl | h
    · exact rankedLockLE_refl _
    · cases h
  | cons r rs ih =>
    intro best x hx
    simp only [pickMin]
    by_cases hb : rankedLockBefore r best = true
    · rw [if_pos hb]
      rcases List.mem_cons.mp hx with heq | hx'
      · -- x = best: the result is ≤ r which is before best
        rw [heq]
        exact rankedLockLE_trans (ih r r (List.mem_cons_self r rs))
          (rankedLockLE_of_before hb)
      · exact ih r x hx'
    · rw [if_neg hb]
      rcases List.mem_cons.mp hx with heq | hx'
      · rw [heq]
        exact ih best best (List.mem_cons_self best rs)
      · rcases List.mem_cons.mp hx' with heq | hx''
        · -- x = r: best is not before-able by r, i.e. result ≤ best ≤ r
          rw [heq]
          exact rankedLockLE_trans (ih best best (List.mem_cons_self best rs))
            (rankedLockLE_of_not_before (Bool.eq_false_iff.mpr hb))
        · exact ih best x (List.mem_cons.mpr (Or.inr hx''))

theorem selectResolve_eq_some (lf : Lockfile) (ts : List Tag) (R : LockedResolve)
    (h : lf.selectResolve ts = some R) :
    ∃ rl ∈ rankedLocks lf (mkSupportedTags ts),
      rl.locked_resolve = R ∧
      ∀ rl' ∈ rankedLocks lf (mkSupportedTags ts), rankedLockLE rl rl' := by
  unfold Lockfile.selectResolve at h
  cases hr : rankedLocks lf (mkSupportedTags ts) with
  | nil => rw [hr] at h; cases h
  | cons r rs =>
    rw [hr] at h
    refine ⟨pickMin r rs, ?_, ?_, ?_⟩
    · exact pickMin_mem rs r
    · exact Option.some.inj h
    · intro rl' hrl'
      exact pickMin_le rs r rl' hrl'

/-! ## Claim theorems: lock selection -/

/-- C1: For every lockfile and every distribution target, lock selection
ranks each locked resolve, discards those that rank to `None`, and returns
the resolve with the minimum average requirement rank; when two resolves have
equal average rank, the tie is broken by the lexicographic order of their
platform tags. -/
theorem select_minimizes_rank_with_platform_tag_tie_break
    (lf : Lockfile) (ts : List Tag) (R : LockedResolve)
    (h : lf.selectResolve ts = some R) :
    (∀ rl, rl ∈ rankedLocks lf (mkSupportedTags ts) ↔
      ∃ lr ∈ lf.locked_resolves, RankedLock.rank lr (mkSupportedTags ts) = some rl) ∧
    ∃ rl ∈ rankedLocks lf (mkSupportedTags ts),
      rl.locked_resolve = R ∧
      ∀ rl' ∈ rankedLocks lf (mkSupportedTags ts),
        rl.average_requirement_rank < rl'.average_requirement_rank ∨
        (rl.average_requirement_rank = rl'.average_requirement_rank ∧
         rl.locked_resolve.platform_tag ≤ rl'.locked_resolve.platform_tag) := by
  constructor
  · intro rl
    simp [rankedLocks, List.mem_filterMap]
  · obtain ⟨rl, hmem, hres, hmin⟩ := selectResolve_eq_some lf ts R h
    exact ⟨rl, hmem, hres, fun rl' h' => hmin rl' h'⟩

/-- Witness for C1 at a concrete lockfile: selection over a lock holding one
universal-wheel resolve succeeds and the theorem's minimality consequence
holds there. -/
theorem select_minimizes_rank_with_platform_tag_tie_break_witness :
    (∀ rl, rl ∈ rankedLocks
        ⟨[⟨"linux-x86_64", [⟨[⟨"https://host/foo-1.0-py3-none-any.whl"⟩]⟩]⟩]⟩
        (mkSupportedTags [⟨"py3", "none", "any"⟩]) ↔
      ∃ lr ∈ (Lockfile.mk
          [⟨"linux-x86_64", [⟨[⟨"https://host/foo-1.0-py3-none-any.whl"⟩]⟩]⟩]).locked_resolves,
        RankedLock.rank lr (mkSupportedTags [⟨"py3", "none", "any"⟩]) = some rl) ∧
    ∃ rl ∈ rankedLocks
        ⟨[⟨"linux-x86_64", [⟨[⟨"https://host/foo-1.0-py3-none-any.whl"⟩]⟩]⟩]⟩
        (mkSupportedTags [⟨"py3", "none", "any"⟩]),
      rl.locked_resolve = ⟨"linux-x86_64", [⟨[⟨"https://host/foo-1.0-py3-none-any.whl"⟩]⟩]⟩ ∧
      ∀ rl' ∈ rankedLocks
          ⟨[⟨"linux-x86_64", [⟨[⟨"https://host/foo-1.0-py3-none-any.whl"⟩]⟩]⟩]⟩
          (mkSupportedTags [⟨"py3", "none", "any"⟩]),
        rl.average_requirement_rank < rl'.average_requirement_rank ∨
        (rl.average_requirement_rank = rl'.average_requirement_rank ∧
         rl.locked_resolve.platform_tag ≤ rl'.locked_resolve.platform_tag) :=
  select_minimizes_rank_with_platform_tag_tie_break
    ⟨[⟨"linux-x86_64", [⟨[⟨"https://host/foo-1.0-py3-none-any.whl"⟩]⟩]⟩]⟩
    [⟨"py3", "none", "any"⟩]
    ⟨"linux-x86_64", [⟨[⟨"https://host/foo-1.0-py3-none-any.whl"⟩]⟩]⟩
    rfl

/-- C2: If some locked requirement in the resolve has no artifact that
receives a rank, ranking returns `None`; consequently, whenever selection
returns a resolve `R` for a target, every requirement in `R` has at least one
artifact with a finite rank. -/
theorem rank_aborts_on_unsatisfied_requirement
    (st : List (Tag × Nat)) (lr : LockedResolve) (req : LockedRequirement)
    (hreq : req ∈ lr.locked_requirements)
    (hnone : ∀ a ∈ req.artifacts, artifactCandidateRanks st a = []) :
    RankedLock.rank lr st = none ∧
    (∀ (lf : Lockfile) (ts : List Tag) (R : LockedResolve),
      lf.selectResolve ts = some R →
      ∀ r ∈ R.locked_requirements,
        ∃ a ∈ r.artifacts, artifactCandidateRanks (mkSupportedTags ts) a ≠ []) := by
  constructor
  · have hrr : requirementRank st req = none := by
      unfold requirementRank
      have : req.artifacts.flatMap (artifactCandidateRanks st) = [] := by
        rw [List.flatMap_eq_nil_iff]
        exact hnone
      rw [this]
      rfl
    have hsum := sumRequirementRanks_none_of_mem st lr.locked_requirements req hreq hrr
    cases hk : RankedLock.rank lr st with
    | none => rfl
    | some rl =>
      obtain ⟨-, s, hs, -⟩ := (rank_eq_some_iff lr st rl).mp hk
      rw [hsum] at hs
      cases hs
  · intro lf ts R hsel r hr
    obtain ⟨rl, hmem, hres, -⟩ := selectResolve_eq_some lf ts R hsel
    obtain ⟨lr', hlr', hrank⟩ := List.mem_filterMap.mp hmem
    obtain ⟨-, s, hs, hrl⟩ := (rank_eq_some_iff lr' (mkSupportedTags ts) rl).mp hrank
    have hlrR : lr' = R := by rw [← hres, hrl]
    subst hlrR
    obtain ⟨n, hn⟩ := sumRequirementRanks_some (mkSupportedTags ts)
      lr'.locked_requirements s hs r hr
    unfold requirementRank at hn
    have hne : r.artifacts.flatMap (artifactCandidateRanks (mkSupportedTags ts)) ≠ [] := by
      intro hcontra
      rw [hcontra] at hn
      cases hn
    obtain ⟨x, hx⟩ := List.exists_mem_of_ne_nil _ hne
    obtain ⟨a, ha, hxa⟩ := List.mem_flatMap.mp hx
    exact ⟨a, ha, fun hempty => by rw [hempty] at hxa; cases hxa⟩

/-- Witness for C2 at a concrete input: a requirement whose only artifact is
an `.exe` (unusable) aborts the ranking of a one-requirement resolve, and a
selected resolve has a ranked artifact for each requirement. -/
theorem rank_aborts_on_unsatisfied_requirement_witness :
    RankedLock.rank ⟨"linux", [⟨[⟨"https://host/foo-1.0.exe"⟩]⟩]⟩
        (mkSupportedTags [⟨"py3", "none", "any"⟩]) = none ∧
    (∀ (lf : Lockfile) (ts : List Tag) (R : LockedResolve),
      lf.selectResolve ts = some R →
      ∀ r ∈ R.locked_requirements,
        ∃ a ∈ r.artifacts, artifactCandidateRanks (mkSupportedTags ts) a ≠ []) :=
  rank_aborts_on_unsatisfied_requirement
    (mkSupportedTags [⟨"py3", "none", "any"⟩])
    ⟨"linux", [⟨[⟨"https://host/foo-1.0.exe"⟩]⟩]⟩
    ⟨[⟨"https://host/foo-1.0.exe"⟩]⟩
    (by decide) (by decide)

theorem tagRank_lt_of_bounded (st : List (Tag × Nat)) (t : Tag) (r : Nat)
    (hst : ∀ p ∈ st, p.2 < st.length) (h : tagRank st t = some r) : r < st.length := by
  unfold tagRank at h
  cases hf : st.find? fun p => p.1 = t with
  | none => rw [hf] at h; cases h
  | some p =>
    rw [hf] at h
    have hp := List.mem_of_find?_eq_some hf
    have : p.2 = r := Option.some.inj h
    rw [← this]
    exact hst p hp

/-- C3: A source-archive artifact is assigned rank exactly
`len(supported_tags)`, strictly greater than every possible wheel rank
(wheel ranks are drawn from the mapping's values, all below
`len(supported_tags)`), so an sdist is chosen for a requirement only when no
usable wheel artifact exists. -/
theorem sdist_rank_strictly_worse_than_any_wheel
    (st : List (Tag × Nat)) (hst : ∀ p ∈ st, p.2 < st.length) :
    (∀ f, isSourceArchiveName f = true → fileCandidateRanks st f = [st.length]) ∧
    (∀ f r, isSourceArchiveName f = false → r ∈ fileCandidateRanks st f →
      r < st.length) ∧
    (∀ req : LockedRequirement,
      (∃ a ∈ req.artifacts, isSourceArchiveName (urlFileName a.url) = false ∧
        artifactCandidateRanks st a ≠ []) →
      ∃ m, requirementRank st req = some m ∧ m < st.length) := by
  have step2 : ∀ f r, isSourceArchiveName f = false → r ∈ fileCandidateRanks st f →
      r < st.length := by
    intro f r hf hr
    unfold fileCandidateRanks at hr
    rw [hf] at hr
    simp only [Bool.false_eq_true, if_false] at hr
    by_cases hw : strEndsWith f ".whl" = true
    · rw [if_pos hw] at hr
      obtain ⟨t, -, ht⟩ := List.mem_filterMap.mp hr
      exact tagRank_lt_of_bounded st t r hst ht
    · rw [if_neg hw] at hr
      cases hr
  refine ⟨?_, step2, ?_⟩
  · intro f hf
    unfold fileCandidateRanks
    rw [hf]
    simp
  · intro req ⟨a, ha, hna, hne⟩
    obtain ⟨x, hx⟩ := List.exists_mem_of_ne_nil _ hne
    have hxlt : x < st.length := step2 (urlFileName a.url) x hna hx
    have hxmem : x ∈ req.artifacts.flatMap (artifactCandidateRanks st) :=
      List.mem_flatMap.mpr ⟨a, ha, hx⟩
    have hsome := List.isSome_min?_of_mem hxmem
    obtain ⟨m, hm⟩ := Option.isSome_iff_exists.mp hsome
    refine ⟨m, hm, ?_⟩
    obtain ⟨-, hle⟩ := List.min?_eq_some_iff'.mp hm
    exact lt_of_le_of_lt (hle x hxmem) hxlt

/-- Witness for C3 at the concrete one-tag mapping
`{py3-none-any: 0}`: the hypothesis that every rank value is below the
mapping size holds, and the three conjuncts follow. -/
theorem sdist_rank_strictly_worse_than_any_wheel_witness :
    (∀ f, isSourceArchiveName f = true →
      fileCandidateRanks (mkSupportedTags [⟨"py3", "none", "any"⟩]) f =
        [(mkSupportedTags [Tag.mk "py3" "none" "any"]).length]) ∧
    (∀ f r, isSourceArchiveName f = false →
      r ∈ fileCandidateRanks (mkSupportedTags [⟨"py3", "none", "any"⟩]) f →
      r < (mkSupportedTags [Tag.mk "py3" "none" "any"]).length) ∧
    (∀ req : LockedRequirement,
      (∃ a ∈ req.artifacts, isSourceArchiveName (urlFileName a.url) = false ∧
        artifactCandidateRanks (mkSupportedTags [⟨"py3", "none", "any"⟩]) a ≠ []) →
      ∃ m, requirementRank (mkSupportedTags [⟨"py3", "none", "any"⟩]) req = some m ∧
        m < (mkSupportedTags [Tag.mk "py3" "none" "any"]).length) :=
  sdist_rank_strictly_worse_than_any_wheel
    (mkSupportedTags [⟨"py3", "none", "any"⟩]) (by decide)

/-- C10: Ranking a locked resolve with an empty `locked_requirements` list
returns `None`, so the average-rank division only happens with a positive
requirement count and an empty resolve is never selected. -/
theorem rank_of_empty_resolve_is_none :
    (∀ (st : List (Tag × Nat)) (lr : LockedResolve),
      lr.locked_requirements = [] → RankedLock.rank lr st = none) ∧
    (∀ (st : List (Tag × Nat)) (lr : LockedResolve) (rl : RankedLock),
      RankedLock.rank lr st = some rl → 0 < lr.locked_requirements.length) ∧
    (∀ (lf : Lockfile) (ts : List Tag) (R : LockedResolve),
      lf.selectResolve ts = some R → 0 < R.locked_requirements.length) := by
  refine ⟨?_, ?_, ?_⟩
  · intro st lr h
    unfold RankedLock.rank
    rw [h]
    rfl
  · intro st lr rl h
    obtain ⟨hne, -⟩ := (rank_eq_some_iff lr st rl).mp h
    exact List.length_pos.mpr hne
  · intro lf ts R hsel
    obtain ⟨rl, hmem, hres, -⟩ := selectResolve_eq_some lf ts R hsel
    obtain ⟨lr', hlr', hrank⟩ := List.mem_filterMap.mp hmem
    obtain ⟨hne, s, -, hrl⟩ := (rank_eq_some_iff lr' (mkSupportedTags ts) rl).mp hrank
    have : lr' = R := by rw [← hres, hrl]
    subst this
    exact List.length_pos.mpr hne

/-- Witness for C10: an empty resolve never ranks, while a concrete ranked
resolve and a concrete selection both have a positive requirement count. -/
theorem rank_of_empty_resolve_is_none_witness :
    RankedLock.rank ⟨"linux-x86_64", []⟩ (mkSupportedTags []) = none ∧
    0 < (LockedResolve.mk "linux-x86_64"
      [⟨[⟨"https://host/foo-1.0.tar.gz"⟩]⟩]).locked_requirements.length ∧
    0 < (LockedResolve.mk "linux-x86_64"
      [⟨[⟨"https://host/foo-1.0.tar.gz"⟩]⟩]).locked_requirements.length :=
  ⟨rank_of_empty_resolve_is_none.1 (mkSupportedTags []) ⟨"linux-x86_64", []⟩ rfl,
   rank_of_empty_resolve_is_none.2.1 (mkSupportedTags [])
     ⟨"linux-x86_64", [⟨[⟨"https://host/foo-1.0.tar.gz"⟩]⟩]⟩
     ⟨((0 : Nat) : Rat) / ((1 : Nat) : Rat),
       ⟨"linux-x86_64", [⟨[⟨"https://host/foo-1.0.tar.gz"⟩]⟩]⟩⟩ rfl,
   rank_of_empty_resolve_is_none.2.2
     ⟨[⟨"linux-x86_64", [⟨[⟨"https://host/foo-1.0.tar.gz"⟩]⟩]⟩]⟩ []
     ⟨"linux-x86_64", [⟨[⟨"https://host/foo-1.0.tar.gz"⟩]⟩]⟩ rfl⟩

/-- C9, counterexample: with zero supported tags, a resolve whose requirement
carries an sdist artifact still ranks (the sdist rank is
`len(supported_tags) = 0`), so a ranked lock is produced while the tag count
used in the logged platform-specificity quotient is zero; the matcher does not
reject resolves when there are no supported tags. -/
theorem select_can_produce_lock_with_zero_supported_tags :
    Lockfile.selectResolve ⟨[⟨"linux-x86_64", [⟨[⟨"https://host/foo-1.0.tar.gz"⟩]⟩]⟩]⟩ [] =
      some ⟨"linux-x86_64", [⟨[⟨"https://host/foo-1.0.tar.gz"⟩]⟩]⟩ ∧
    (mkSupportedTags []).length = 0 := by
  constructor
  · rfl
  · rfl

/-- C9, amended: the logged platform-specificity quotient
`(count − average_requirement_rank) / count` cannot divide by zero whenever
the target has at least one supported tag; the matcher itself does not reject
resolves when there are no supported tags. -/
theorem select_tag_count_positive_for_nonempty_tags
    (lf : Lockfile) (ts : List Tag) (R : LockedResolve)
    (_hsel : lf.selectResolve ts = some R) (hts : ts ≠ []) :
    0 < (mkSupportedTags ts).length := by
  have hlen : (mkSupportedTags ts).length = ts.length := by
    simp [mkSupportedTags]
  rw [hlen]
  exact List.length_pos.mpr hts

/-- Witness for the amended C9 at a concrete selection. -/
theorem select_tag_count_positive_for_nonempty_tags_witness :
    0 < (mkSupportedTags [Tag.mk "py3" "none" "any"]).length :=
  select_tag_count_positive_for_nonempty_tags
    ⟨[⟨"linux", [⟨[⟨"https://host/foo-1.0-py3-none-any.whl"⟩]⟩]⟩]⟩
    [⟨"py3", "none", "any"⟩]
    ⟨"linux", [⟨[⟨"https://host/foo-1.0-py3-none-any.whl"⟩]⟩]⟩
    (by decide) (by decide)

/-! ## Download pool sizing (`pex/resolve/lock_resolver.py:207-209, 300-303`) -/

/-- Python `x or y` on an integer: `0` is falsy. -/
def pyOrNat (n d : Nat) : Nat := if n = 0 then d else n

/-- Python `x or y` where `x` is an optional integer: both `None` and `0` are
falsy. -/
def pyOrOptNat (x : Option Nat) (d : Nat) : Nat :=
  match x with
  | none => d
  | some n => pyOrNat n d

def MAX_PARALLEL_DOWNLOADS : Nat := 10

/-- The thread-pool size computed in `resolve_from_lock`:
`min(len(downloadable_artifacts) or 1,
     min(MAX_PARALLEL_DOWNLOADS, 4 * (max_parallel_jobs or cpu_count() or 1)))`. -/
def maxThreads (numArtifacts : Nat) (maxParallelJobs : Option Nat)
    (cpuCount : Option Nat) : Nat :=
  min (pyOrNat numArtifacts 1)
    (min MAX_PARALLEL_DOWNLOADS (4 * pyOrOptNat maxParallelJobs (pyOrOptNat cpuCount 1)))

/-- The pool size as the claim states it:
`min(len(artifacts), min(10, 4 × max_jobs))`.  This follows the spec's words,
for comparison with `maxThreads`, which follows the source. -/
def claimedPoolSize (numArtifacts maxJobs : Nat) : Nat :=
  min numArtifacts (min 10 (4 * maxJobs))

theorem one_le_pyOrOptNat_one (x y : Option Nat) :
    1 ≤ pyOrOptNat x (pyOrOptNat y 1) := by
  have hbase : ∀ z : Option Nat, 1 ≤ pyOrOptNat z 1 := by
    intro z
    cases z with
    | none => exact le_refl 1
    | some m =>
      have hm : pyOrOptNat (some m) 1 = if m = 0 then 1 else m := rfl
      rw [hm]
      split
      · omega
      · omega
  cases x with
  | none => exact hbase y
  | some n =>
    have hn : pyOrOptNat (some n) (pyOrOptNat y 1) =
        if n = 0 then pyOrOptNat y 1 else n := rfl
    rw [hn]
    split
    · exact hbase y
    · omega

/-- C4, counterexample: for the empty artifact set the claimed formula gives
a pool of size `min(0, min(10, 4 × 1)) = 0`, but the source computes
`len(...) or 1` and spawns a pool of size 1. -/
theorem maxThreads_differs_from_claim_on_empty_set :
    maxThreads 0 (some 1) (some 8) = 1 ∧ claimedPoolSize 0 1 = 0 ∧
    maxThreads 0 (some 1) (some 8) ≠ claimedPoolSize 0 1 := by
  refine ⟨rfl, rfl, ?_⟩
  decide

/-- C4, amended: the pool size is
`min(len(artifacts) or 1, min(MAX_PARALLEL_DOWNLOADS, 4 × max_jobs))` with
`MAX_PARALLEL_DOWNLOADS = 10`: for a nonempty artifact set and an explicit
positive `max_jobs` this is exactly the claimed
`min(len(artifacts), min(10, 4 × max_jobs))`, while the empty artifact set
always gets a pool of size 1. -/
theorem maxThreads_eq_claim_for_nonempty_set
    (n j : Nat) (c : Option Nat) (hn : 1 ≤ n) (hj : 1 ≤ j) :
    maxThreads n (some j) c = claimedPoolSize n j ∧
    MAX_PARALLEL_DOWNLOADS = 10 ∧
    (∀ (j' c' : Option Nat), maxThreads 0 j' c' = 1) := by
  refine ⟨?_, rfl, ?_⟩
  · have hn0 : n ≠ 0 := by omega
    have hj0 : j ≠ 0 := by omega
    simp [maxThreads, claimedPoolSize, pyOrOptNat, pyOrNat, MAX_PARALLEL_DOWNLOADS, hn0, hj0]
  · intro j' c'
    unfold maxThreads
    have h1 : pyOrNat 0 1 = 1 := rfl
    rw [h1]
    have h4 : 1 ≤ 4 * pyOrOptNat j' (pyOrOptNat c' 1) := by
      have := one_le_pyOrOptNat_one j' c'
      omega
    have : 1 ≤ min MAX_PARALLEL_DOWNLOADS (4 * pyOrOptNat j' (pyOrOptNat c' 1)) := by
      unfold MAX_PARALLEL_DOWNLOADS
      omega
    omega

/-- Witness for the amended C4 at `len(artifacts) = 3`, `max_jobs = 2`. -/
theorem maxThreads_eq_claim_for_nonempty_set_witness :
    maxThreads 3 (some 2) none = claimedPoolSize 3 2 ∧
    MAX_PARALLEL_DOWNLOADS = 10 ∧
    (∀ (j' c' : Option Nat), maxThreads 0 j' c' = 1) :=
  maxThreads_eq_claim_for_nonempty_set 3 2 none (by decide) (by decide)

/-! ## Download orchestration error aggregation
(`pex/resolve/lock_resolver.py:330-359`)

`pool.map` runs every download task to completion and yields one result per
`DownloadableArtifact` — failures are returned as `Error` values by
`download_artifact` (which `catch`es), never raised.  The categorization loop
and the aggregated error construction below embed the post-pool portion. -/

/-- `Pin`: modelled from the spec, `(project_name, version)`
(`pex/resolve/locked_resolve.py` is not under `src/`). -/
structure Pin where
  project_name : String
  version : String
deriving DecidableEq, Repr

/-- `DownloadableArtifact`: its pin and artifact URL, the two components the
error report prints. -/
structure DownloadableArtifact where
  pin : Pin
  url : String
deriving DecidableEq, Repr

/-- `DownloadedArtifact { path, fingerprint }`
(`pex/resolve/lockfile/download_manager.py` is not under `src/`; the spec
gives the fields). -/
structure DownloadedArtifact where
  path : String
  fingerprint : String
deriving DecidableEq, Repr

/-- The result of one download task: `download_artifact` returns either a
`DownloadedArtifact` or a caught `Error` (modelled by its message). -/
inductive DownloadResult where
  | downloaded (artifact : DownloadedArtifact)
  | failed (error : String)
deriving DecidableEq, Repr

/-- The categorization loop over `download_results`: downloaded artifacts and
download errors, each in task order (the Python ordered dicts are keyed by
`DownloadableArtifact`; the upstream `OrderedSet` makes the keys unique, so
ordered association lists are a faithful model). -/
def categorizeDownloads :
    List (DownloadableArtifact × DownloadResult) →
      List (DownloadableArtifact × DownloadedArtifact) ×
      List (DownloadableArtifact × String)
  | [] => ([], [])
  | (da, res) :: rest =>
    let cat := categorizeDownloads rest
    match res with
    | .downloaded d => ((da, d) :: cat.1, cat.2)
    | .failed e => (cat.1, (da, e) :: cat.2)

/-- Modelled from the spec: the rendering of a pin in the error report
("listing every `(pin, url, diagnostic)`"); `Pin.__str__` is not under
`src/`. -/
def pinRepr (p : Pin) : String := p.project_name ++ " " ++ p.version

/-- `pex.common.pluralize` (not under `src/`): the noun `"error"` pluralized
unless the count is 1. -/
def pluralizeError (n : Nat) : String := if n = 1 then "error" else "errors"

/-- One line of the aggregated report:
`"{index}. {pin} from {url}\n    {error}"`. -/
def errorDetailLine (index : Nat) (entry : DownloadableArtifact × String) : String :=
  toString index ++ ". " ++ pinRepr entry.1.pin ++ " from " ++ entry.1.url
    ++ "\n    " ++ entry.2

/-- The `"\n".join(...)` over the numbered error details, with
`enumerate(download_errors.items(), start=1)`. -/
def downloadErrorDetails (errs : List (DownloadableArtifact × String)) : String :=
  joinStr '\n' (errs.enum.map fun p => errorDetailLine (p.1 + 1) p.2)

/-- The single aggregated `Error` message:
`"There {was/were} {count} {error(s)} downloading required artifacts:\n{details}"`. -/
def downloadErrorsMessage (errs : List (DownloadableArtifact × String)) : String :=
  "There " ++ (if errs.length = 1 then "was" else "were") ++ " "
    ++ toString errs.length ++ " " ++ pluralizeError errs.length
    ++ " downloading required artifacts:\n" ++ downloadErrorDetails errs

/-- `if download_errors: return Error(...)`: `none` means all downloads
succeeded and `resolve_from_lock` proceeds to the build/install phase. -/
def aggregateDownloadErrors
    (download_results : List (DownloadableArtifact × DownloadResult)) :
    Option String :=
  match (categorizeDownloads download_results).2 with
  | [] => none
  | e :: es => some (downloadErrorsMessage (e :: es))

/-- C5: the orchestrator collects the result of every task (the error list is
exactly the failed results, in completion order), returns no error when every
download succeeded, returns the single aggregated message whenever any task
failed, and numbers the per-failure detail lines from 1 with each failure's
pin, URL and diagnostic. -/
theorem download_errors_collected_and_aggregated
    (results : List (DownloadableArtifact × DownloadResult)) :
    (categorizeDownloads results).2 = results.filterMap
      (fun p => match p.2 with
        | .failed e => some (p.1, e)
        | .downloaded _ => none) ∧
    ((∀ p ∈ results, ∀ e, p.2 ≠ DownloadResult.failed e) →
      aggregateDownloadErrors results = none) ∧
    (∀ p ∈ results, ∀ e, p.2 = DownloadResult.failed e →
      aggregateDownloadErrors results =
        some (downloadErrorsMessage (categorizeDownloads results).2)) ∧
    (∀ i : Nat, ((categorizeDownloads results).2.enum.map
        (fun p => errorDetailLine (p.1 + 1) p.2))[i]? =
      ((categorizeDownloads results).2[i]?).map
        (fun q => errorDetailLine (i + 1) q)) := by
  have hfilter : ∀ rs : List (DownloadableArtifact × DownloadResult),
      (categorizeDownloads rs).2 = rs.filterMap
        (fun p => match p.2 with
          | .failed e => some (p.1, e)
          | .downloaded _ => none) := by
    intro rs
    induction rs with
    | nil => rfl
    | cons hd tl ih =>
      obtain ⟨da, res⟩ := hd
      cases res with
      | downloaded d => simpa [categorizeDownloads] using ih
      | failed e => simpa [categorizeDownloads] using ih
  refine ⟨hfilter results, ?_, ?_, ?_⟩
  · intro hok
    have hnil : (categorizeDownloads results).2 = [] := by
      rw [hfilter results]
      rw [List.filterMap_eq_nil_iff]
      intro p hp
      cases hres : p.2 with
      | downloaded d => rfl
      | failed e => exact absurd hres (hok p hp e)
    unfold aggregateDownloadErrors
    rw [hnil]
  · intro p hp e he
    have hmem : (p.1, e) ∈ (categorizeDownloads results).2 := by
      rw [hfilter results]
      refine List.mem_filterMap.mpr ⟨p, hp, ?_⟩
      rw [he]
    unfold aggregateDownloadErrors
    cases hcat : (categorizeDownloads results).2 with
    | nil => rw [hcat] at hmem; cases hmem
    | cons q qs => rfl
  · intro i
    rw [List.getElem?_map, List.getElem?_enum]
    cases ((categorizeDownloads results).2)[i]? with
    | none => rfl
    | some q => rfl

/-- Witness for C5: a run with one success and one failure aggregates into a
single error listing the failure, and a run with only successes returns no
error. -/
theorem download_errors_collected_and_aggregated_witness :
    aggregateDownloadErrors
      [(⟨⟨"ansicolors", "1.1.8"⟩, "https://host/ansicolors-1.1.8-py2.py3-none-any.whl"⟩,
          DownloadResult.downloaded ⟨"/cache/ansicolors.whl", "sha256:abc"⟩),
       (⟨⟨"cowsay", "4.0"⟩, "https://host/cowsay-4.0.tar.gz"⟩,
          DownloadResult.failed "connection reset")] =
      some (downloadErrorsMessage
        (categorizeDownloads
          [(⟨⟨"ansicolors", "1.1.8"⟩, "https://host/ansicolors-1.1.8-py2.py3-none-any.whl"⟩,
              DownloadResult.downloaded ⟨"/cache/ansicolors.whl", "sha256:abc"⟩),
           (⟨⟨"cowsay", "4.0"⟩, "https://host/cowsay-4.0.tar.gz"⟩,
              DownloadResult.failed "connection reset")]).2) ∧
    aggregateDownloadErrors
      [(⟨⟨"ansicolors", "1.1.8"⟩, "https://host/ansicolors-1.1.8-py2.py3-none-any.whl"⟩,
          DownloadResult.downloaded ⟨"/cache/ansicolors.whl", "sha256:abc"⟩)] = none :=
  ⟨(download_errors_collected_and_aggregated
      [(⟨⟨"ansicolors", "1.1.8"⟩, "https://host/ansicolors-1.1.8-py2.py3-none-any.whl"⟩,
          DownloadResult.downloaded ⟨"/cache/ansicolors.whl", "sha256:abc"⟩),
       (⟨⟨"cowsay", "4.0"⟩, "https://host/cowsay-4.0.tar.gz"⟩,
          DownloadResult.failed "connection reset")]).2.2.1
    (⟨⟨"cowsay", "4.0"⟩, "https://host/cowsay-4.0.tar.gz"⟩,
        DownloadResult.failed "connection reset")
    (by decide) "connection reset" rfl,
   (download_errors_collected_and_aggregated
      [(⟨⟨"ansicolors", "1.1.8"⟩, "https://host/ansicolors-1.1.8-py2.py3-none-any.whl"⟩,
          DownloadResult.downloaded ⟨"/cache/ansicolors.whl", "sha256:abc"⟩)]).2.1
    (by
      intro p hp e
      rcases List.mem_singleton.mp hp with rfl
      simp)⟩

/-! ## PEP 517 hook invocation (`pex/build_system/pep_517.py`) -/

/-- `Job.Error` as `is_hook_unavailable_error` and `build_sdist` consume it:
the subprocess exit code and the captured stderr (`pex/jobs.py` is not under
`src/`; the spec fixes these fields: "Non-zero other exit codes are failures
with captured stderr"). -/
structure JobError where
  exitcode : Int
  stderr : String
deriving DecidableEq, Repr

/-- Exit code 75 is `EX_TEMPFAIL` (`pex/build_system/pep_517.py:82`). -/
def _HOOK_UNAVAILABLE_EXIT_CODE : Int := 75

/-- `is_hook_unavailable_error(error)`:
`error.exitcode == _HOOK_UNAVAILABLE_EXIT_CODE`. -/
def is_hook_unavailable_error (error : JobError) : Bool :=
  error.exitcode == _HOOK_UNAVAILABLE_EXIT_CODE

/-- How one run of the generated hook script ends once the hook attribute
exists: the hook returns (its result is written to the result file and the
interpreter exits 0) or raises (an uncaught Python exception terminates the
interpreter with exit code 1). -/
inductive HookRunOutcome where
  | success (result : String)
  | raised
deriving DecidableEq, Repr

/-- The exit code of the script generated by `_invoke_build_hook`:
`if not hasattr(build_backend_object, hook_method): sys.exit(75)`, then the
hook runs. -/
def hookScriptExitCode (hasHookAttr : Bool) (outcome : HookRunOutcome) : Int :=
  if hasHookAttr then
    match outcome with
    | .success _ => 0
    | .raised => 1
  else
    _HOOK_UNAVAILABLE_EXIT_CODE

/-- The error `build_sdist` produces from a `Job.Error`:
`"Failed to build sdist for local project {project_directory}: {err}\n{stderr}"`
(`errText` stands for Python's rendering `str(e)` of the job error). -/
def buildSdistFailureMessage (project_directory errText stderr : String) : String :=
  ("Failed to build sdist for local project " ++ project_directory ++ ": "
    ++ errText ++ "\n") ++ stderr

/-- C6: The generated hook script exits with code 75 exactly when the build
backend object lacks the requested hook attribute; `is_hook_unavailable_error`
holds for a job error precisely when its exit code equals 75; and any other
failing exit produces an error message that carries the captured stderr. -/
theorem hook_unavailable_iff_exit_75 :
    (∀ (hasHookAttr : Bool) (outcome : HookRunOutcome),
      hookScriptExitCode hasHookAttr outcome = _HOOK_UNAVAILABLE_EXIT_CODE ↔
        hasHookAttr = false) ∧
    (∀ error : JobError, is_hook_unavailable_error error = true ↔ error.exitcode = 75) ∧
    (∀ (project_directory errText : String) (error : JobError),
      ∃ p, buildSdistFailureMessage project_directory errText error.stderr =
        p ++ error.stderr) := by
  refine ⟨?_, ?_, ?_⟩
  · intro hasHookAttr outcome
    cases hasHookAttr <;> cases outcome <;>
      simp [hookScriptExitCode, _HOOK_UNAVAILABLE_EXIT_CODE]
  · intro error
    simp [is_hook_unavailable_error, _HOOK_UNAVAILABLE_EXIT_CODE]
  · intro project_directory errText error
    exact ⟨"Failed to build sdist for local project " ++ project_directory ++ ": "
      ++ errText ++ "\n", rfl⟩

/-! ## VCS archive digesting (`pex/pip/vcs.py:76-107`)

`digest_vcs_archive` extracts the zip archive into a scratch directory and
feeds the extracted tree to `pex.hashing.dir_hash` with a directory filter
that drops both `__pycache__` and the VCS control directory, and the bytecode
file filter.  `pex/hashing.py` and the `pex/common.py` filters are not under
`src/`; they are modelled from the spec (§4.1): the hash walks the tree in a
deterministic order — sorted by path component at every depth — feeding each
retained file's `(relative_path, contents)` into the digest with a fixed
injective framing, so the digest is modelled as that emitted stream.
Extraction of the zip is modelled as the identity on the archive's tree:
`extractall` reproduces the archived tree in the scratch directory, control
directories included — the exclusion happens only at hashing time, so the
archive itself still contains them. -/

/-- A filesystem tree: named files with contents and named directories. -/
inductive FSTree where
  | file (name : String) (content : String)
  | dir (name : String) (children : List FSTree)
deriving Repr

def fileEntry : FSTree → Option (String × String)
  | .file n c => some (n, c)
  | .dir _ _ => none

def dirEntry : FSTree → Option (String × List FSTree)
  | .dir n cs => some (n, cs)
  | .file _ _ => none

/-- Modelled from the spec: `pex.common.filter_pyc_dirs` (not under `src/`)
retains every directory name except `__pycache__`. -/
def filter_pyc_dirs (dirs : List String) : List String :=
  dirs.filter fun d => d ≠ "__pycache__"

/-- Modelled from the spec: `pex.common.filter_pyc_files` (not under `src/`)
retains every file name not ending in `.pyc` or `.pyo`. -/
def filter_pyc_files (files : List String) : List String :=
  files.filter fun f => !(strEndsWith f ".pyc" || strEndsWith f ".pyo")

/-- Code-point lexicographic comparison of character lists — the order Python
sorts file names by. -/
def charListLe : List Char → List Char → Bool
  | [], _ => true
  | _ :: _, [] => false
  | a :: as, b :: bs =>
    if a.toNat < b.toNat then true
    else if b.toNat < a.toNat then false
    else charListLe as bs

def strLeB (a b : String) : Bool := charListLe a.data b.data

def insertSorted (a : String) : List String → List String
  | [] => [a]
  | b :: bs => if strLeB a b then a :: b :: bs else b :: insertSorted a bs

/-- The deterministic name order of the directory walk (insertion sort by
code-point order). -/
def sortStrings (l : List String) : List String := l.foldr insertSorted []

/-- Modelled from the spec: the walk underlying `pex.hashing.dir_hash` (not
under `src/`).  At every depth the file and directory name lists are passed
to the filters, the retained names are visited in sorted order, and each
retained file contributes its `(relative path, contents)` pair to the digest
stream.  The recursion is driven by a fuel parameter so that the definition
is structural; `walkForest` below supplies fuel that `walkForestFuel_stable`
proves sufficient, so the fuel-exhaustion branch is never taken. -/
def walkForestFuel (df ff : List String → List String) :
    Nat → String → List FSTree → List (String × String)
  | 0, _, _ => []
  | fuel + 1, rel, children =>
    (sortStrings (ff ((children.filterMap fileEntry).map Prod.fst))).filterMap
      (fun n => ((children.filterMap fileEntry).find? (fun q => q.1 = n)).map
        (fun q => (rel ++ n, q.2)))
    ++ (sortStrings (df ((children.filterMap dirEntry).map Prod.fst))).flatMap
      (fun n =>
        match (children.filterMap dirEntry).find? (fun q => q.1 = n) with
        | none => []
        | some q => walkForestFuel df ff fuel (rel ++ n ++ "/") q.2)

mutual

/-- The size of a tree, bounding the depth of the directory walk. -/
def fsTreeSize : FSTree → Nat
  | .file _ _ => 1
  | .dir _ cs => 1 + fsForestSize cs

/-- The size of a children list. -/
def fsForestSize : List FSTree → Nat
  | [] => 1
  | t :: ts => 1 + fsTreeSize t + fsForestSize ts

end

/-- The directory walk with enough fuel for the whole tree: every recursion
step strictly decreases the tree size, so `fsForestSize` bounds the depth. -/
def walkForest (df ff : List String → List String) (rel : String)
    (children : List FSTree) : List (String × String) :=
  walkForestFuel df ff (fsForestSize children) rel children

/-- Modelled from the spec: `pex.hashing.dir_hash` — the digest is the framed
stream of `(relative path, contents)` pairs of the filtered walk. -/
def dir_hash (df ff : List String → List String) (root : List FSTree) :
    List (String × String) :=
  walkForest df ff "" root

/-- `".{vcs}".format(vcs=vcs)` from `digest_vcs_archive`. -/
def vcsControlDirName (vcs : String) : String := "." ++ vcs

/-- The directory filter `digest_vcs_archive` passes to `dir_hash`:
`lambda dirs: [d for d in filter_pyc_dirs(dirs) if d != vcs_control_dir]`. -/
def vcsDirFilter (vcs : String) (dirs : List String) : List String :=
  (filter_pyc_dirs dirs).filter fun d => d ≠ vcsControlDirName vcs

/-- `digest_vcs_archive(archive_path, vcs, digest)`: extract the archive and
hash the extracted tree with the VCS-aware directory filter and the bytecode
file filter. -/
def digest_vcs_archive (vcs : String) (archive : List FSTree) :
    List (String × String) :=
  dir_hash (vcsDirFilter vcs) filter_pyc_files archive

mutual

/-- Replaces the contents of every directory whose name satisfies `p` (at any
depth) with an empty directory, leaving everything else intact
(`scrubForest` maps it over a children list). -/
def scrubDirs (p : String → Bool) : FSTree → FSTree
  | .file n c => .file n c
  | .dir n cs => if p n then .dir n [] else .dir n (scrubForest p cs)

def scrubForest (p : String → Bool) : List FSTree → List FSTree
  | [] => []
  | t :: ts => scrubDirs p t :: scrubForest p ts

end

/-- The directory names the VCS digest's directory filter excludes: the VCS
control directory and `__pycache__`. -/
def vcsScrubP (vcs : String) (n : String) : Bool :=
  n = vcsControlDirName vcs || n = "__pycache__"

/-! ### Lemmas about the VCS digest -/

theorem one_le_fsForestSize : ∀ l : List FSTree, 1 ≤ fsForestSize l
  | [] => le_refl _
  | t :: ts => by
    rw [fsForestSize]
    omega

theorem scrubForest_eq_map (p : String → Bool) :
    ∀ l : List FSTree, scrubForest p l = l.map (scrubDirs p)
  | [] => rfl
  | t :: ts => by
    rw [scrubForest, List.map_cons, scrubForest_eq_map p ts]

mutual

theorem fsTreeSize_scrubDirs_le (p : String → Bool) :
    ∀ t : FSTree, fsTreeSize (scrubDirs p t) ≤ fsTreeSize t
  | .file n c => le_refl _
  | .dir n cs => by
    rw [scrubDirs]
    split
    · rw [fsTreeSize, fsTreeSize, fsForestSize]
      have := one_le_fsForestSize cs
      omega
    · rw [fsTreeSize, fsTreeSize]
      have := fsForestSize_scrubForest_le p cs
      omega

theorem fsForestSize_scrubForest_le (p : String → Bool) :
    ∀ l : List FSTree, fsForestSize (scrubForest p l) ≤ fsForestSize l
  | [] => le_refl _
  | t :: ts => by
    rw [scrubForest, fsForestSize, fsForestSize]
    have h1 := fsTreeSize_scrubDirs_le p t
    have h2 := fsForestSize_scrubForest_le p ts
    omega

end

theorem fileEntry_scrubDirs (p : String → Bool) (t : FSTree) :
    fileEntry (scrubDirs p t) = fileEntry t := by
  cases t with
  | file n c => rfl
  | dir n cs =>
    rw [scrubDirs]
    split
    · rfl
    · rfl

theorem filterMap_fileEntry_scrubForest (p : String → Bool) :
    ∀ l : List FSTree, (scrubForest p l).filterMap fileEntry = l.filterMap fileEntry
  | [] => rfl
  | t :: ts => by
    rw [scrubForest, List.filterMap_cons, List.filterMap_cons, fileEntry_scrubDirs,
      filterMap_fileEntry_scrubForest p ts]

/-- What scrubbing does to one `(name, children)` directory entry. -/
def scrubEntry (p : String → Bool) (q : String × List FSTree) : String × List FSTree :=
  (q.1, if p q.1 then [] else scrubForest p q.2)

theorem filterMap_dirEntry_scrubForest (p : String → Bool) :
    ∀ l : List FSTree,
      (scrubForest p l).filterMap dirEntry = (l.filterMap dirEntry).map (scrubEntry p)
  | [] => rfl
  | t :: ts => by
    have ih := filterMap_dirEntry_scrubForest p ts
    cases t with
    | file n c =>
      rw [scrubForest]
      have hs : scrubDirs p (FSTree.file n c) = FSTree.file n c := rfl
      rw [hs, List.filterMap_cons, List.filterMap_cons]
      simp only [dirEntry]
      rw [ih]
    | dir n cs =>
      rw [scrubForest, scrubDirs]
      by_cases hp : p n
      · rw [if_pos hp, List.filterMap_cons, List.filterMap_cons]
        simp only [dirEntry]
        rw [ih, List.map_cons]
        simp only [scrubEntry, hp, if_pos]
      · rw [if_neg hp, List.filterMap_cons, List.filterMap_cons]
        simp only [dirEntry]
        rw [ih, List.map_cons]
        simp only [scrubEntry, hp]
        rfl

theorem map_fst_map_scrubEntry (p : String → Bool) (l : List (String × List FSTree)) :
    (l.map (scrubEntry p)).map Prod.fst = l.map Prod.fst := by
  rw [List.map_map]
  rfl

theorem find?_map_scrubEntry (p : String → Bool) (l : List (String × List FSTree))
    (n : String) :
    (l.map (scrubEntry p)).find? (fun q => q.1 = n) =
      (l.find? (fun q => q.1 = n)).map (scrubEntry p) := by
  rw [List.find?_map]
  rfl

theorem mem_insertSorted (a x : String) :
    ∀ l : List String, a ∈ insertSorted x l → a = x ∨ a ∈ l
  | [] => by
    intro h
    rcases List.mem_singleton.mp h with rfl
    exact Or.inl rfl
  | b :: bs => by
    intro h
    rw [insertSorted] at h
    split at h
    · rcases List.mem_cons.mp h with rfl | h'
      · exact Or.inl rfl
      · exact Or.inr h'
    · rcases List.mem_cons.mp h with rfl | h'
      · exact Or.inr (List.mem_cons_self _ _)
      · rcases mem_insertSorted a x bs h' with h'' | h''
        · exact Or.inl h''
        · exact Or.inr (List.mem_cons.mpr (Or.inr h''))

theorem mem_sortStrings (a : String) :
    ∀ l : List String, a ∈ sortStrings l → a ∈ l
  | [] => by intro h; cases h
  | x :: xs => by
    intro h
    have hfold : sortStrings (x :: xs) = insertSorted x (sortStrings xs) := rfl
    rw [hfold] at h
    rcases mem_insertSorted a x (sortStrings xs) h with rfl | h'
    · exact List.mem_cons_self _ _
    · exact List.mem_cons.mpr (Or.inr (mem_sortStrings a xs h'))

theorem mem_vcsDirFilter (vcs n : String) (dirs : List String)
    (h : n ∈ vcsDirFilter vcs dirs) :
    vcsScrubP vcs n = false := by
  unfold vcsDirFilter filter_pyc_dirs at h
  have h1 := List.mem_filter.mp h
  have h2 := List.mem_filter.mp h1.1
  have hc : n ≠ vcsControlDirName vcs := by simpa using h1.2
  have hp : n ≠ "__pycache__" := by simpa using h2.2
  simp [vcsScrubP, hc, hp]

theorem fsTreeSize_lt_of_mem {t : FSTree} :
    ∀ {l : List FSTree}, t ∈ l → fsTreeSize t < fsForestSize l := by
  intro l
  induction l with
  | nil => intro h; cases h
  | cons hd tl ih =>
    intro h
    rw [fsForestSize]
    rcases List.mem_cons.mp h with rfl | h'
    · have := one_le_fsForestSize tl
      omega
    · have := ih h'
      omega

theorem fsForestSize_findDir_lt (l : List FSTree) (n : String)
    (q : String × List FSTree)
    (h : (l.filterMap dirEntry).find? (fun r => r.1 = n) = some q) :
    fsForestSize q.2 < fsForestSize l := by
  have hq := List.mem_of_find?_eq_some h
  obtain ⟨t, ht, hdt⟩ := List.mem_filterMap.mp hq
  have hlt : fsTreeSize t < fsForestSize l := fsTreeSize_lt_of_mem ht
  cases t with
  | file m c => simp [dirEntry] at hdt
  | dir m cs =>
    simp only [dirEntry] at hdt
    have hcs : q.2 = cs := by rw [← Option.some.inj hdt]
    rw [hcs]
    rw [fsTreeSize] at hlt
    omega

theorem flatMapCongr {α β : Type} (l : List α) (f g : α → List β)
    (h : ∀ a ∈ l, f a = g a) : l.flatMap f = l.flatMap g := by
  induction l with
  | nil => rfl
  | cons a as ih =>
    rw [List.flatMap_cons, List.flatMap_cons, h a (List.mem_cons_self a as),
      ih fun b hb => h b (List.mem_cons.mpr (Or.inr hb))]

/-- With enough fuel, the walk does not depend on the exact fuel value. -/
theorem walkForestFuel_stable (df ff : List String → List String) :
    ∀ (m : Nat) (children : List FSTree), fsForestSize children ≤ m →
      ∀ (f1 f2 : Nat), fsForestSize children ≤ f1 → fsForestSize children ≤ f2 →
      ∀ rel, walkForestFuel df ff f1 rel children = walkForestFuel df ff f2 rel children := by
  intro m
  induction m with
  | zero =>
    intro children hc
    have := one_le_fsForestSize children
    omega
  | succ m ih =>
    intro children hc f1 f2 h1 h2 rel
    have hpos := one_le_fsForestSize children
    cases f1 with
    | zero => omega
    | succ a =>
      cases f2 with
      | zero => omega
      | succ b =>
        rw [walkForestFuel, walkForestFuel]
        congr 1
        apply flatMapCongr
        intro n hn
        cases hfind : (children.filterMap dirEntry).find? (fun q => q.1 = n) with
        | none => rfl
        | some q =>
          have hsz := fsForestSize_findDir_lt children n q hfind
          exact ih q.2 (by omega) a b (by omega) (by omega) _

/-- Scrubbing the contents of every directory the digest's filters exclude
does not change the walk, at any fuel. -/
theorem walkForestFuel_scrub (vcs : String) :
    ∀ (fuel : Nat) (rel : String) (children : List FSTree),
      walkForestFuel (vcsDirFilter vcs) filter_pyc_files fuel rel
        (scrubForest (vcsScrubP vcs) children) =
      walkForestFuel (vcsDirFilter vcs) filter_pyc_files fuel rel children := by
  intro fuel
  induction fuel with
  | zero => intro rel children; rfl
  | succ fuel ih =>
    intro rel children
    rw [walkForestFuel, walkForestFuel]
    rw [filterMap_fileEntry_scrubForest, filterMap_dirEntry_scrubForest,
      map_fst_map_scrubEntry]
    congr 1
    apply flatMapCongr
    intro n hn
    rw [find?_map_scrubEntry]
    cases hfind : (children.filterMap dirEntry).find? (fun q => q.1 = n) with
    | none => rfl
    | some q =>
      have hq1 : q.1 = n := by
        have := List.find?_some hfind
        simpa using this
      have hp : vcsScrubP vcs q.1 = false := by
        unfold vcsScrubP
        rw [hq1]
        have hmem := mem_sortStrings n _ hn
        exact mem_vcsDirFilter vcs n _ hmem
      have hscr : scrubEntry (vcsScrubP vcs) q =
          (q.1, scrubForest (vcsScrubP vcs) q.2) := by
        unfold scrubEntry
        rw [hp]
        rfl
      have hm : Option.map (scrubEntry (vcsScrubP vcs)) (some q) =
          some (q.1, scrubForest (vcsScrubP vcs) q.2) := by
        rw [Option.map_some', hscr]
      rw [hm]
      exact ih _ _

/-- C7: the VCS archive digest is the deterministic directory hash of the
extracted archive tree with a directory filter that excludes both the VCS
control directory `.<vcs>` and `__pycache__` directories and a file filter
that excludes bytecode files; consequently the fingerprint is independent of
the contents of every VCS control directory, while the archive tree itself
still contains them (the digest input is the unpruned tree; only the filters
skip the control directory). -/
theorem vcs_digest_ignores_control_dir_contents :
    (∀ (vcs : String) (dirs : List String),
      vcsDirFilter vcs dirs =
        dirs.filter fun d => !(d = "__pycache__" || d = vcsControlDirName vcs)) ∧
    (∀ (files : List String) (f : String), f ∈ filter_pyc_files files →
      strEndsWith f ".pyc" = false ∧ strEndsWith f ".pyo" = false) ∧
    (∀ (vcs : String) (archive : List FSTree),
      digest_vcs_archive vcs archive =
        digest_vcs_archive vcs (scrubForest (vcsScrubP vcs) archive)) := by
  refine ⟨?_, ?_, ?_⟩
  · intro vcs dirs
    unfold vcsDirFilter filter_pyc_dirs
    rw [List.filter_filter]
    apply List.filter_congr
    intro d _
    by_cases h1 : d = "__pycache__"
    · simp [h1, vcsControlDirName]
    · by_cases h2 : d = vcsControlDirName vcs
      · simp [h1, h2]
      · simp [h1, h2]
  · intro files f hf
    unfold filter_pyc_files at hf
    have h := (List.mem_filter.mp hf).2
    constructor
    · by_cases hc : strEndsWith f ".pyc" = true
      · rw [hc] at h; simp at h
      · simpa using hc
    · by_cases hc : strEndsWith f ".pyo" = true
      · rw [hc] at h; simp at h
      · simpa using hc
  · intro vcs archive
    unfold digest_vcs_archive dir_hash walkForest
    have hle : fsForestSize (scrubForest (vcsScrubP vcs) archive) ≤ fsForestSize archive :=
      fsForestSize_scrubForest_le (vcsScrubP vcs) archive
    have hstable := walkForestFuel_stable (vcsDirFilter vcs) filter_pyc_files
      (fsForestSize archive) (scrubForest (vcsScrubP vcs) archive) hle
      (fsForestSize (scrubForest (vcsScrubP vcs) archive)) (fsForestSize archive)
      (le_refl _) hle ""
    rw [hstable, walkForestFuel_scrub vcs (fsForestSize archive) "" archive]

/-- Witness for C7 (second conjunct's hypothesis discharged at a concrete
input): a kept source file is not bytecode, and the digest of a concrete
archive with a populated `.git` directory equals the digest after scrubbing
it. -/
theorem vcs_digest_ignores_control_dir_contents_witness :
    (strEndsWith "setup.py" ".pyc" = false ∧ strEndsWith "setup.py" ".pyo" = false) ∧
    digest_vcs_archive "git"
        [FSTree.dir ".git" [FSTree.file "HEAD" "ref: refs/heads/main"],
         FSTree.file "setup.py" "S"] =
      digest_vcs_archive "git"
        (scrubForest (vcsScrubP "git")
          [FSTree.dir ".git" [FSTree.file "HEAD" "ref: refs/heads/main"],
           FSTree.file "setup.py" "S"]) :=
  ⟨vcs_digest_ignores_control_dir_contents.2.1 ["setup.py", "x.pyc"] "setup.py"
      (by decide),
   vcs_digest_ignores_control_dir_contents.2.2 "git"
     [FSTree.dir ".git" [FSTree.file "HEAD" "ref: refs/heads/main"],
      FSTree.file "setup.py" "S"]⟩

/-! ## Path mappings (`pex/resolve/resolver_options.py:458-475`) -/

/-- The `PathMapping` value `_parse_path_mapping` constructs
(`pex/resolve/path_mappings.py` is not under `src/`; the spec gives the
fields `NAME|PATH[|DESCRIPTION]`). -/
structure PathMapping where
  path : String
  name : String
  description : Option String
deriving DecidableEq, Repr

/-- `_parse_path_mapping(path_mapping)`: split on `|` with at most two
splits; fewer than two components raise `ArgumentTypeError` (modelled as
`Except.error` with the message text elided); otherwise
`PathMapping(path=components[1], name=components[0], description=components[2]?)`. -/
def _parse_path_mapping (path_mapping : String) : Except String PathMapping :=
  match splitLimit2 '|' path_mapping with
  | [name, path] => .ok ⟨path, name, none⟩
  | [name, path, description] => .ok ⟨path, name, some description⟩
  | _ => .error ("A path mapping must be of the form `NAME|PATH` with an optional "
      ++ "trailing `|DESCRIPTION`, given: " ++ path_mapping ++ ".")

/-- `os.path.isabs` on POSIX: the path starts with `/`. -/
def isAbsPath (p : String) : Bool :=
  match p.data with
  | [] => false
  | c :: _ => c = '/'

/-- C8, counterexample: the parser accepts `"FL|relative/path"` and the
resulting mapping's PATH component is not an absolute path — no absoluteness
check exists in `_parse_path_mapping`. -/
theorem parse_path_mapping_accepts_relative_path :
    _parse_path_mapping "FL|relative/path" =
      .ok ⟨"relative/path", "FL", none⟩ ∧
    isAbsPath "relative/path" = false := by
  constructor
  · rfl
  · rfl

/-- C8, amended: the argument string is split on `|` into NAME, PATH and an
optional DESCRIPTION, a string with fewer than two pipe-separated components
is rejected with an error, and the PATH component is the second component
verbatim — the parser does not check or make it absolute. -/
theorem parse_path_mapping_splits_components (s : String) (m : PathMapping)
    (h : _parse_path_mapping s = .ok m) :
    2 ≤ (splitLimit2 '|' s).length ∧
    (splitLimit2 '|' s).headD "" = m.name ∧
    ((splitLimit2 '|' s).drop 1).headD "" = m.path ∧
    ((splitLimit2 '|' s).drop 2).head? = m.description ∧
    (∀ s', (splitLimit2 '|' s').length < 2 →
      ∃ e, _parse_path_mapping s' = .error e) := by
  have hlast : ∀ s', (splitLimit2 '|' s').length < 2 →
      ∃ e, _parse_path_mapping s' = .error e := by
    intro s' hlen
    unfold _parse_path_mapping
    cases hsp : splitLimit2 '|' s' with
    | nil => exact ⟨_, rfl⟩
    | cons a tl =>
      cases tl with
      | nil => exact ⟨_, rfl⟩
      | cons b tl2 =>
        rw [hsp] at hlen
        simp at hlen
        omega
  unfold _parse_path_mapping at h
  cases hsp : splitLimit2 '|' s with
  | nil => rw [hsp] at h; cases h
  | cons a tl =>
    cases tl with
    | nil => rw [hsp] at h; cases h
    | cons b tl2 =>
      cases tl2 with
      | nil =>
        rw [hsp] at h
        have hm : m = ⟨b, a, none⟩ := (Except.ok.inj h).symm
        subst hm
        exact ⟨by simp, rfl, rfl, rfl, hlast⟩
      | cons c tl3 =>
        cases tl3 with
        | nil =>
          rw [hsp] at h
          have hm : m = ⟨b, a, some c⟩ := (Except.ok.inj h).symm
          subst hm
          exact ⟨by simp, rfl, rfl, rfl, hlast⟩
        | cons d tl4 =>
          rw [hsp] at h
          cases h

/-- Witness for the amended C8 at `"FL|/path|find links"`. -/
theorem parse_path_mapping_splits_components_witness :
    2 ≤ (splitLimit2 '|' "FL|/path|find links").length ∧
    (splitLimit2 '|' "FL|/path|find links").headD "" = (PathMapping.mk "/path" "FL"
      (some "find links")).name ∧
    ((splitLimit2 '|' "FL|/path|find links").drop 1).headD "" = (PathMapping.mk "/path" "FL"
      (some "find links")).path ∧
    ((splitLimit2 '|' "FL|/path|find links").drop 2).head? = (PathMapping.mk "/path" "FL"
      (some "find links")).description ∧
    (∀ s', (splitLimit2 '|' s').length < 2 →
      ∃ e, _parse_path_mapping s' = .error e) :=
  parse_path_mapping_splits_components "FL|/path|find links"
    ⟨"/path", "FL", some "find links"⟩ rfl

end Pex
